import Mathlib

/-!
Shallow embedding of the streaming chat frontend of this repository:
the conversation state machine (src/frontend/hooks/useChat.ts), the
stream transport reader (src/frontend/lib/api.ts, sendStreamChatMessage),
the progressive reveal renderer (src/frontend/components/MessageList.tsx,
TextPart) and the suggestion debouncer (the chat input component).

Conventions of the embedding:
- JavaScript strings are modelled as Lean String (for message content)
  or List Char (for the byte-stream reader, where splitting on the
  frame delimiter needs character-level recursion).
- performance.now() readings are an external input: every step of the
  machine takes the clock value observed during that step.
- React state plus the mutable refs of the hook are collected into one
  record, ChatState; flushSync-wrapped functional setState calls become
  pure record updates.
- requestAnimationFrame is modelled by a Boolean rafPending flag (the
  rafIdRef is either null or holds one scheduled callback); the callback
  firing is an explicit step (Happening.raf), which the browser may
  interleave between event-processing turns but never inside one.
-/

namespace FrontendRag

/-- Source citation, from the Source interface in src/frontend/lib/api.ts. -/
structure Source where
  title : String
  source : String
  type : String
  url : Option String := none
deriving DecidableEq, Repr

/-- Chat message, from the ChatMessage interface in src/frontend/lib/api.ts.
The optional TS fields sources?: and isStreaming?: get defaults [] / false. -/
structure ChatMessage where
  role : String
  content : String
  sources : List Source := []
  isStreaming : Bool := false
deriving DecidableEq, Repr

/-- The typed stream events decoded from the wire, i.e. the chunk.type
dispatch in sendMessage (src/frontend/hooks/useChat.ts lines 137-152). -/
inductive StreamEvent where
  | session_id (data : String)
  | sources (data : List Source)
  | status (data : String)
  | cached
  | content (data : String)
  | error (data : String)
deriving DecidableEq, Repr

/-- All React state and refs of useChat gathered into one record
(src/frontend/hooks/useChat.ts lines 40-51). -/
structure ChatState where
  messages : List ChatMessage
  isLoading : Bool
  sessionId : Option String
  status : String
  isCached : Bool
  currentStreamContent : String
  currentSources : List Source
  assistantMessageIndex : Nat
  lastRenderTime : Nat
  pendingContent : String
  rafPending : Bool
deriving DecidableEq, Repr

/-- The JavaScript String.prototype.trim operation: strip whitespace from
both ends of the string. -/
def jsTrim (s : String) : String :=
  String.mk
    (((s.data.dropWhile Char.isWhitespace).reverse.dropWhile
        Char.isWhitespace).reverse)

/-- The state before any interaction. -/
def initialChatState : ChatState :=
  { messages := [], isLoading := false, sessionId := none, status := "",
    isCached := false, currentStreamContent := "", currentSources := [],
    assistantMessageIndex := 0, lastRenderTime := 0, pendingContent := "",
    rafPending := false }

/-- The guarded in-place update pattern used by every setMessages updater in
useChat: `if (newMessages[idx] && newMessages[idx].role === 'assistant')`
replace the element at idx, otherwise leave the list untouched. -/
def setMessageIf (msgs : List ChatMessage) (idx : Nat)
    (f : ChatMessage → ChatMessage) : List ChatMessage :=
  match msgs[idx]? with
  | some m => if m.role = "assistant" then msgs.set idx (f m) else msgs
  | none => msgs

/-- updateStreamingMessage (src/frontend/hooks/useChat.ts lines 53-76):
early-return when no pending content, otherwise commit the pending snapshot
into the placeholder slot and stamp the commit time. -/
def updateStreamingMessage (s : ChatState) (now : Nat) : ChatState :=
  if s.pendingContent = "" then s
  else
    { s with
      pendingContent := ""
      messages := setMessageIf s.messages s.assistantMessageIndex fun m =>
        { m with content := s.pendingContent, sources := s.currentSources,
                 isStreaming := true }
      lastRenderTime := now }

/-- scheduleRender (src/frontend/hooks/useChat.ts lines 78-95): skip when a
frame callback is already scheduled; commit immediately when at least the
16ms minimum frame time elapsed since the last commit; otherwise schedule
one frame callback. -/
def scheduleRender (s : ChatState) (now : Nat) : ChatState :=
  if s.rafPending then s
  else if 16 ≤ now - s.lastRenderTime then updateStreamingMessage s now
  else { s with rafPending := true }

/-- The requestAnimationFrame callback of scheduleRender firing
(src/frontend/hooks/useChat.ts lines 90-93): clears rafIdRef, then runs
updateStreamingMessage. It can only fire while a callback is scheduled. -/
def rafFire (s : ChatState) (now : Nat) : ChatState :=
  if s.rafPending then updateStreamingMessage { s with rafPending := false } now
  else s

/-- One chunk of the for-await loop body in sendMessage
(src/frontend/hooks/useChat.ts lines 137-152); the error arm throws. -/
def handleChunk (s : ChatState) (e : StreamEvent) (now : Nat) :
    Except String ChatState :=
  match e with
  | .session_id d => .ok { s with sessionId := some d }
  | .sources d => .ok { s with currentSources := d }
  | .status d => .ok { s with status := d }
  | .cached => .ok { s with isCached := true, status := "来自缓存" }
  | .content d =>
      let s1 := { s with currentStreamContent := s.currentStreamContent ++ d }
      let s2 := { s1 with pendingContent := s1.currentStreamContent }
      .ok (scheduleRender s2 now)
  | .error d => .error d

/-- What can happen while the stream is open: a decoded event is processed,
or the scheduled frame callback fires between two event-processing turns.
Each happening carries the performance.now() reading observed during it. -/
inductive Happening where
  | ev (e : StreamEvent) (now : Nat)
  | raf (now : Nat)
deriving DecidableEq, Repr

/-- Run the for-await loop over a schedule of happenings; stops at the first
error event, returning the state at the throw plus the thrown message
(remaining schedule entries inside the loop are never reached). -/
def runStream (s : ChatState) : List Happening → ChatState × Option String
  | [] => (s, none)
  | .ev e now :: rest =>
      match handleChunk s e now with
      | .ok s1 => runStream s1 rest
      | .error msg => (s, some msg)
  | .raf now :: rest => runStream (rafFire s now) rest

/-- The synchronous mutation prefix of sendMessage after its guard passes
(src/frontend/hooks/useChat.ts lines 101-128): append the user message,
set loading, append the streaming placeholder and record its index,
reset the per-turn refs and status flags. -/
def submitPhase (s : ChatState) (text : String) : ChatState :=
  let s1 := { s with messages := s.messages ++
      [({ role := "user", content := jsTrim text } : ChatMessage)] }
  let s2 := { s1 with isLoading := true }
  let s3 := { s2 with
      assistantMessageIndex := s2.messages.length
      messages := s2.messages ++
        [({ role := "assistant", content := "", isStreaming := true } :
            ChatMessage)] }
  { s3 with currentStreamContent := "", pendingContent := "",
            currentSources := [], lastRenderTime := 0,
            status := "正在连接...", isCached := false }

/-- Normal end of stream (src/frontend/hooks/useChat.ts lines 155-173 and
the finally block): cancel any scheduled frame callback, force a final
commit, clear the streaming flag on the placeholder, stop loading. -/
def finishTurn (s : ChatState) (tEnd : Nat) : ChatState :=
  let s1 := { s with rafPending := false }
  let s2 := updateStreamingMessage s1 tEnd
  let s3 := { s2 with messages := (setMessageIf s2.messages
      s2.assistantMessageIndex (fun m => { m with isStreaming := false })) }
  { s3 with isLoading := false }

/-- The catch handler plus finally block (src/frontend/hooks/useChat.ts
lines 197-215): replace the placeholder content with the localized error
string and clear its streaming flag; the scheduled frame callback is NOT
cancelled here. -/
def failTurn (s : ChatState) (msg : String) : ChatState :=
  let s1 := { s with messages := (setMessageIf s.messages
      s.assistantMessageIndex (fun m =>
        { m with content := "抱歉，发生了错误：" ++ msg,
                 isStreaming := false })) }
  { s1 with isLoading := false }

/-- sendMessage in streaming mode (src/frontend/hooks/useChat.ts lines
97-218): the synchronous guard, the mutation prefix, the stream loop over
the given schedule, and the success or catch epilogue. -/
def sendMessage (s : ChatState) (text : String) (hs : List Happening)
    (tEnd : Nat) : ChatState :=
  if jsTrim text = "" ∨ s.isLoading = true then s
  else
    match runStream (submitPhase s text) hs with
    | (s1, none) => finishTurn s1 tEnd
    | (s1, some msg) => failTurn s1 msg

/-- A message record as returned by getSessionMessages. -/
structure LoadedMessage where
  role : String
  content : String
  sources : List Source
deriving DecidableEq, Repr

/-- loadSession (src/frontend/hooks/useChat.ts lines 229-244), success path:
adopt the session id and replace the list with the loaded messages, each
with isStreaming := false. -/
def loadSession (s : ChatState) (sid : String) (msgs : List LoadedMessage) :
    ChatState :=
  { s with sessionId := some sid,
           messages := msgs.map fun m =>
             { role := m.role, content := m.content, sources := m.sources,
               isStreaming := false } }

/-- Concatenation, in arrival order, of the content fragments in a
schedule. -/
def contentConcat : List Happening → String
  | [] => ""
  | .ev (.content d) _ :: rest => d ++ contentConcat rest
  | _ :: rest => contentConcat rest

/-- Whether a schedule contains an error event. -/
def hasError : List Happening → Bool
  | [] => false
  | .ev (.error _) _ :: _ => true
  | _ :: rest => hasError rest

/-- Number of messages whose streaming flag is set. -/
def countStreaming (msgs : List ChatMessage) : Nat :=
  (msgs.filter fun m => m.isStreaming).length

/-! ### Basic lemmas about the guarded slot update and the scheduler -/

theorem string_append_eq_empty {a b : String} (h : a ++ b = "") :
    a = "" ∧ b = "" := by
  cases a; cases b; simp_all [String.ext_iff]

theorem setMessageIf_getElem_ne (msgs : List ChatMessage) (idx : Nat)
    (f : ChatMessage → ChatMessage) (j : Nat) (h : j ≠ idx) :
    (setMessageIf msgs idx f)[j]? = msgs[j]? := by
  unfold setMessageIf
  cases hm : msgs[idx]? with
  | none => rfl
  | some m =>
      dsimp only
      split
      · exact List.getElem?_set_ne (Ne.symm h)
      · rfl

theorem setMessageIf_none (msgs : List ChatMessage) (idx : Nat)
    (f : ChatMessage → ChatMessage) (h : msgs[idx]? = none) :
    setMessageIf msgs idx f = msgs := by
  unfold setMessageIf; rw [h]

theorem setMessageIf_not_assistant (msgs : List ChatMessage) (idx : Nat)
    (f : ChatMessage → ChatMessage) (m : ChatMessage)
    (h : msgs[idx]? = some m) (hr : ¬ m.role = "assistant") :
    setMessageIf msgs idx f = msgs := by
  unfold setMessageIf; rw [h]; simp [hr]

theorem setMessageIf_assistant (msgs : List ChatMessage) (idx : Nat)
    (f : ChatMessage → ChatMessage) (m : ChatMessage)
    (h : msgs[idx]? = some m) (hr : m.role = "assistant") :
    (setMessageIf msgs idx f)[idx]? = some (f m) := by
  have hlt : idx < msgs.length := (List.getElem?_eq_some.mp h).1
  unfold setMessageIf
  rw [h]
  simp only [hr, if_pos]
  rw [List.getElem?_set_self]
  exact hlt

theorem updateStreamingMessage_pending (s : ChatState) (now : Nat) :
    (updateStreamingMessage s now).pendingContent = "" := by
  unfold updateStreamingMessage
  split
  · assumption
  · rfl

theorem updateStreamingMessage_aIdx (s : ChatState) (now : Nat) :
    (updateStreamingMessage s now).assistantMessageIndex
      = s.assistantMessageIndex := by
  unfold updateStreamingMessage; split <;> rfl

theorem updateStreamingMessage_messages_ne (s : ChatState) (now : Nat)
    (j : Nat) (h : j ≠ s.assistantMessageIndex) :
    (updateStreamingMessage s now).messages[j]? = s.messages[j]? := by
  unfold updateStreamingMessage
  split
  · rfl
  · exact setMessageIf_getElem_ne _ _ _ _ h

theorem updateStreamingMessage_messages_none (s : ChatState) (now : Nat)
    (h : s.messages[s.assistantMessageIndex]? = none) :
    (updateStreamingMessage s now).messages = s.messages := by
  unfold updateStreamingMessage
  split
  · rfl
  · exact setMessageIf_none _ _ _ h

theorem updateStreamingMessage_messages_na (s : ChatState) (now : Nat)
    (m : ChatMessage) (h : s.messages[s.assistantMessageIndex]? = some m)
    (hr : ¬ m.role = "assistant") :
    (updateStreamingMessage s now).messages = s.messages := by
  unfold updateStreamingMessage
  split
  · rfl
  · exact setMessageIf_not_assistant _ _ _ _ h hr

theorem scheduleRender_cases (s : ChatState) (now : Nat) :
    scheduleRender s now = updateStreamingMessage s now ∨
    scheduleRender s now = { s with rafPending := true } ∨
    scheduleRender s now = s := by
  unfold scheduleRender
  split
  · exact Or.inr (Or.inr rfl)
  · split
    · exact Or.inl rfl
    · exact Or.inr (Or.inl rfl)

/-! ### The streaming-turn invariant -/

/-- During one streaming turn: the placeholder index is fixed, the slot
holds an assistant message, a committed slot shows the full accumulator,
and a pending snapshot is always the latest accumulator value. -/
def StreamInv (idx : Nat) (s : ChatState) : Prop :=
  s.assistantMessageIndex = idx ∧
  (∃ m, s.messages[idx]? = some m ∧ m.role = "assistant" ∧
    (s.pendingContent = "" → m.content = s.currentStreamContent)) ∧
  (¬ s.pendingContent = "" → s.pendingContent = s.currentStreamContent)

theorem streamInv_updateStreamingMessage {idx : Nat} {s : ChatState}
    (h : StreamInv idx s) (now : Nat) :
    StreamInv idx (updateStreamingMessage s now) ∧
    (updateStreamingMessage s now).currentStreamContent
      = s.currentStreamContent := by
  obtain ⟨hidx, ⟨m, hm, hrole, hcontent⟩, hpend⟩ := h
  unfold updateStreamingMessage
  split
  case isTrue hp => exact ⟨⟨hidx, ⟨m, hm, hrole, hcontent⟩, hpend⟩, rfl⟩
  case isFalse hp =>
    have hpc : s.pendingContent = s.currentStreamContent := hpend hp
    refine ⟨⟨hidx, ⟨{ m with content := s.pendingContent, sources := s.currentSources, isStreaming := true }, ?_, hrole, fun _ => hpc⟩, fun hc => absurd rfl hc⟩, rfl⟩
    subst hidx
    exact setMessageIf_assistant _ _ _ _ hm hrole

theorem streamInv_scheduleRender {idx : Nat} {s : ChatState}
    (h : StreamInv idx s) (now : Nat) :
    StreamInv idx (scheduleRender s now) ∧
    (scheduleRender s now).currentStreamContent = s.currentStreamContent := by
  rcases scheduleRender_cases s now with hc | hc | hc <;> rw [hc]
  · exact streamInv_updateStreamingMessage h now
  · exact ⟨h, rfl⟩
  · exact ⟨h, rfl⟩

theorem streamInv_rafFire {idx : Nat} {s : ChatState}
    (h : StreamInv idx s) (now : Nat) :
    StreamInv idx (rafFire s now) ∧
    (rafFire s now).currentStreamContent = s.currentStreamContent := by
  unfold rafFire
  split
  · exact streamInv_updateStreamingMessage
      (show StreamInv idx { s with rafPending := false } from h) now
  · exact ⟨h, rfl⟩

theorem runStream_ok {idx : Nat} (hs : List Happening) :
    ∀ (s : ChatState), hasError hs = false → StreamInv idx s →
      (runStream s hs).2 = none ∧ StreamInv idx (runStream s hs).1 ∧
      (runStream s hs).1.currentStreamContent
        = s.currentStreamContent ++ contentConcat hs := by
  induction hs with
  | nil =>
      intro s _ hinv
      exact ⟨rfl, hinv, by simp [runStream, contentConcat]⟩
  | cons h rest ih =>
      intro s herr hinv
      cases h with
      | raf now =>
          have hstep := streamInv_rafFire hinv now
          have hres := ih (rafFire s now) (by simpa [hasError] using herr)
            hstep.1
          refine ⟨hres.1, hres.2.1, ?_⟩
          rw [show runStream s (.raf now :: rest)
              = runStream (rafFire s now) rest from rfl,
            hres.2.2, hstep.2]
          simp [contentConcat]
      | ev e now =>
          cases e with
          | error d => simp [hasError] at herr
          | session_id d =>
              have hres := ih { s with sessionId := some d }
                (by simpa [hasError] using herr) hinv
              exact ⟨hres.1, hres.2.1,
                by simpa [runStream, handleChunk, contentConcat]
                  using hres.2.2⟩
          | sources d =>
              have hres := ih { s with currentSources := d }
                (by simpa [hasError] using herr) hinv
              exact ⟨hres.1, hres.2.1,
                by simpa [runStream, handleChunk, contentConcat]
                  using hres.2.2⟩
          | status d =>
              have hres := ih { s with status := d }
                (by simpa [hasError] using herr) hinv
              exact ⟨hres.1, hres.2.1,
                by simpa [runStream, handleChunk, contentConcat]
                  using hres.2.2⟩
          | cached =>
              have hres := ih { s with isCached := true, status := "来自缓存" }
                (by simpa [hasError] using herr) hinv
              exact ⟨hres.1, hres.2.1,
                by simpa [runStream, handleChunk, contentConcat]
                  using hres.2.2⟩
          | content d =>
              obtain ⟨hidx, ⟨m, hm, hrole, hcontent⟩, hpend⟩ := hinv
              have hinv2 : StreamInv idx
                  { s with
                    currentStreamContent := s.currentStreamContent ++ d,
                    pendingContent := s.currentStreamContent ++ d } := by
                refine ⟨hidx, ⟨m, hm, hrole, ?_⟩, fun _ => rfl⟩
                intro hp
                obtain ⟨ha, hd⟩ := string_append_eq_empty hp
                by_cases hpo : s.pendingContent = ""
                · rw [hcontent hpo, ha, hd]; rfl
                · exact absurd (by rw [hpend hpo, ha]) hpo
              have hstep := streamInv_scheduleRender hinv2 now
              have hres := ih _ (by simpa [hasError] using herr) hstep.1
              refine ⟨hres.1, hres.2.1, ?_⟩
              rw [show runStream s (.ev (.content d) now :: rest)
                  = runStream (scheduleRender
                      { s with
                        currentStreamContent := s.currentStreamContent ++ d,
                        pendingContent := s.currentStreamContent ++ d } now)
                      rest from rfl,
                hres.2.2, hstep.2]
              show s.currentStreamContent ++ d ++ contentConcat rest
                = s.currentStreamContent ++ (d ++ contentConcat rest)
              rw [String.append_assoc]

/-- The pending snapshot is either absent or the latest accumulator value. -/
def PendingLatest (s : ChatState) : Prop :=
  s.pendingContent = "" ∨ s.pendingContent = s.currentStreamContent

theorem pendingLatest_updateStreamingMessage (s : ChatState) (now : Nat) :
    PendingLatest (updateStreamingMessage s now) :=
  Or.inl (updateStreamingMessage_pending s now)

theorem pendingLatest_runStream (hs : List Happening) :
    ∀ s : ChatState, PendingLatest s → PendingLatest (runStream s hs).1 := by
  induction hs with
  | nil => intro s h; exact h
  | cons hp rest ih =>
      intro s h
      cases hp with
      | raf now =>
          refine ih (rafFire s now) ?_
          unfold rafFire
          split
          · exact pendingLatest_updateStreamingMessage _ _
          · exact h
      | ev e now =>
          cases e with
          | error d => exact h
          | content d =>
              refine ih _ ?_
              rcases scheduleRender_cases
                  { s with
                    currentStreamContent := s.currentStreamContent ++ d,
                    pendingContent := s.currentStreamContent ++ d } now
                with hc | hc | hc <;> rw [hc]
              · exact pendingLatest_updateStreamingMessage _ _
              · exact Or.inr rfl
              · exact Or.inr rfl
          | session_id d => exact ih _ h
          | sources d => exact ih _ h
          | status d => exact ih _ h
          | cached => exact ih _ h

/-! ### Claim theorems: conversation state machine and render scheduler -/

/-- C1: for every schedule of content events (arbitrarily chunked and
arbitrarily interleaved with frame-callback firings and other non-error
events) delivered in one turn, the assistant placeholder ends the turn
holding exactly the concatenation of the content fragments in arrival
order, and its streaming flag is cleared at stream end. -/
theorem turn_final_content_is_concat (s : ChatState) (text : String)
    (hs : List Happening) (tEnd : Nat)
    (hload : s.isLoading = false) (htext : ¬ jsTrim text = "")
    (herr : hasError hs = false) :
    ∃ m, (sendMessage s text hs tEnd).messages[s.messages.length + 1]?
        = some m ∧
      m.content = contentConcat hs ∧ m.isStreaming = false := by
  have hguard : ¬ (jsTrim text = "" ∨ s.isLoading = true) := by
    simp [htext, hload]
  have hsp : StreamInv (s.messages.length + 1) (submitPhase s text) := by
    refine ⟨by simp [submitPhase], ⟨{ role := "assistant", content := "", isStreaming := true }, ?_, rfl, fun _ => rfl⟩, fun hc => absurd rfl hc⟩
    show ((s.messages ++ [({ role := "user", content := jsTrim text } : ChatMessage)]) ++ [({ role := "assistant", content := "", isStreaming := true } : ChatMessage)])[s.messages.length + 1]? = _
    have hlen : s.messages.length + 1
        = (s.messages ++ [({ role := "user", content := jsTrim text } : ChatMessage)]).length := by
      simp
    rw [hlen]
    exact List.getElem?_concat_length _ _
  obtain ⟨hnone, hinv, hcsc⟩ :=
    @runStream_ok (s.messages.length + 1) hs (submitPhase s text)
      herr hsp
  unfold sendMessage
  rw [if_neg hguard]
  rcases hrun : runStream (submitPhase s text) hs with ⟨s1, o⟩
  rw [hrun] at hnone hinv hcsc
  cases o with
  | some msg => exact absurd hnone (by simp)
  | none =>
      show ∃ m, (finishTurn s1 tEnd).messages[s.messages.length + 1]?
          = some m ∧ m.content = contentConcat hs ∧ m.isStreaming = false
      have h1 : StreamInv (s.messages.length + 1)
          { s1 with rafPending := false } := hinv
      have h2 := streamInv_updateStreamingMessage h1 tEnd
      obtain ⟨hidx2, ⟨m, hm, hrole, hcontent⟩, _⟩ := h2.1
      have hpend0 :
          (updateStreamingMessage { s1 with rafPending := false } tEnd).pendingContent = "" :=
        updateStreamingMessage_pending _ _
      have hmc : m.content = contentConcat hs := by
        rw [hcontent hpend0, h2.2]
        show s1.currentStreamContent = _
        rw [hcsc]
        rfl
      refine ⟨{ m with isStreaming := false }, ?_, hmc, rfl⟩
      show (setMessageIf
          (updateStreamingMessage { s1 with rafPending := false } tEnd).messages
          (updateStreamingMessage { s1 with rafPending := false } tEnd).assistantMessageIndex
          (fun m => { m with isStreaming := false }))[s.messages.length + 1]?
        = some { m with isStreaming := false }
      rw [hidx2]
      exact setMessageIf_assistant _ _ _ _ hm hrole

/-- Witness for C1 at a concrete turn: the scenario of the spec, with the
three fragments "He", "llo", " world" and one frame callback interleaved. -/
theorem turn_final_content_is_concat_witness :
    initialChatState.isLoading = false ∧
    ¬ jsTrim "hello" = "" ∧
    hasError
      [Happening.ev (StreamEvent.content "He") 100,
       Happening.raf 104,
       Happening.ev (StreamEvent.content "llo") 105,
       Happening.ev (StreamEvent.content " world") 109] = false ∧
    (∃ m, (sendMessage initialChatState "hello"
        [Happening.ev (StreamEvent.content "He") 100,
         Happening.raf 104,
         Happening.ev (StreamEvent.content "llo") 105,
         Happening.ev (StreamEvent.content " world") 109] 130).messages[initialChatState.messages.length + 1]?
        = some m ∧
      m.content = contentConcat
        [Happening.ev (StreamEvent.content "He") 100,
         Happening.raf 104,
         Happening.ev (StreamEvent.content "llo") 105,
         Happening.ev (StreamEvent.content " world") 109] ∧
      m.isStreaming = false) :=
  ⟨rfl, by decide, rfl,
    turn_final_content_is_concat initialChatState "hello" _ 130 rfl
      (by decide) rfl⟩

/-- C4: arrival-side behavior of the Render Scheduler: a snapshot arriving
while a frame callback is scheduled schedules nothing further; with at
least the 16ms minimum interval elapsed the commit happens immediately;
otherwise exactly one frame callback is scheduled; a commit writes the
latest accumulator snapshot into the slot; and along any stream schedule
the pending snapshot is always the latest accumulated value, so every
commit, whenever it fires, applies the most recent snapshot. -/
theorem renderScheduler_spec (s : ChatState) (now : Nat) :
    (s.rafPending = true → scheduleRender s now = s) ∧
    (s.rafPending = false → 16 ≤ now - s.lastRenderTime →
      scheduleRender s now = updateStreamingMessage s now) ∧
    (s.rafPending = false → now - s.lastRenderTime < 16 →
      scheduleRender s now = { s with rafPending := true }) ∧
    (¬ s.pendingContent = "" → s.pendingContent = s.currentStreamContent →
      (updateStreamingMessage s now).messages
        = setMessageIf s.messages s.assistantMessageIndex (fun m =>
            { m with content := s.currentStreamContent, sources := s.currentSources, isStreaming := true })) ∧
    (∀ hs : List Happening, PendingLatest s →
      PendingLatest (runStream s hs).1) := by
  refine ⟨?_, ?_, ?_, ?_, fun hs h => pendingLatest_runStream hs s h⟩
  · intro h; unfold scheduleRender; rw [if_pos h]
  · intro h1 h2
    unfold scheduleRender
    rw [if_neg (by simp [h1]), if_pos h2]
  · intro h1 h2
    unfold scheduleRender
    rw [if_neg (by simp [h1]), if_neg (by omega)]
  · intro h1 h2
    unfold updateStreamingMessage
    rw [if_neg h1]
    simp only [h2]

/-- Witness for C4: with a callback scheduled the scheduler is inert, and
with 20ms elapsed since the last commit it commits immediately. -/
theorem renderScheduler_spec_witness :
    ({ initialChatState with rafPending := true } : ChatState).rafPending
      = true ∧
    scheduleRender { initialChatState with rafPending := true } 5
      = { initialChatState with rafPending := true } ∧
    scheduleRender initialChatState 20
      = updateStreamingMessage initialChatState 20 :=
  ⟨rfl, (renderScheduler_spec { initialChatState with rafPending := true } 5).1 rfl,
    (renderScheduler_spec initialChatState 20).2.1 rfl (by decide)⟩

/-- C8: a submission whose text is empty after trimming, or made while a
turn is in flight, is rejected synchronously with no state mutation at
all: the entire state record is unchanged. -/
theorem submit_rejected_without_mutation (s : ChatState) (text : String)
    (hs : List Happening) (tEnd : Nat)
    (h : jsTrim text = "" ∨ s.isLoading = true) :
    sendMessage s text hs tEnd = s := by
  unfold sendMessage
  rw [if_pos h]

/-- Witness for C8: a whitespace-only submission leaves the initial state
untouched. -/
theorem submit_rejected_without_mutation_witness :
    (jsTrim "   " = "" ∨ initialChatState.isLoading = true) ∧
    sendMessage initialChatState "   " [] 0 = initialChatState :=
  ⟨Or.inl (by decide),
    submit_rejected_without_mutation initialChatState "   " [] 0
      (Or.inl (by decide))⟩

/-- C10: the scheduler-gated commit and the stream-end finalization touch
only the recorded placeholder slot: every other index reads back
unchanged, and when the slot is missing or holds a non-assistant message
the message list is left exactly as it was. -/
theorem commit_finalize_frame_effect (s : ChatState) (now : Nat) :
    (∀ j, ¬ j = s.assistantMessageIndex →
      (updateStreamingMessage s now).messages[j]? = s.messages[j]?) ∧
    (∀ j, ¬ j = s.assistantMessageIndex →
      (finishTurn s now).messages[j]? = s.messages[j]?) ∧
    (s.messages[s.assistantMessageIndex]? = none →
      (updateStreamingMessage s now).messages = s.messages ∧
      (finishTurn s now).messages = s.messages) ∧
    (∀ m, s.messages[s.assistantMessageIndex]? = some m →
      ¬ m.role = "assistant" →
      (updateStreamingMessage s now).messages = s.messages ∧
      (finishTurn s now).messages = s.messages) := by
  have hu := updateStreamingMessage_aIdx { s with rafPending := false } now
  refine ⟨fun j hj => updateStreamingMessage_messages_ne s now j hj,
    ?_, ?_, ?_⟩
  · intro j hj
    show (setMessageIf
        (updateStreamingMessage { s with rafPending := false } now).messages
        (updateStreamingMessage { s with rafPending := false } now).assistantMessageIndex
        (fun m => { m with isStreaming := false }))[j]? = s.messages[j]?
    rw [setMessageIf_getElem_ne _ _ _ _ (by rw [hu]; exact hj)]
    exact updateStreamingMessage_messages_ne
      { s with rafPending := false } now j hj
  · intro hn
    refine ⟨updateStreamingMessage_messages_none s now hn, ?_⟩
    have h1 : (updateStreamingMessage { s with rafPending := false } now).messages
        = s.messages :=
      updateStreamingMessage_messages_none { s with rafPending := false } now hn
    show setMessageIf
        (updateStreamingMessage { s with rafPending := false } now).messages
        (updateStreamingMessage { s with rafPending := false } now).assistantMessageIndex
        (fun m => { m with isStreaming := false }) = s.messages
    rw [h1, hu]
    exact setMessageIf_none _ _ _ hn
  · intro m hm hr
    refine ⟨updateStreamingMessage_messages_na s now m hm hr, ?_⟩
    have h1 : (updateStreamingMessage { s with rafPending := false } now).messages
        = s.messages :=
      updateStreamingMessage_messages_na { s with rafPending := false } now m hm hr
    show setMessageIf
        (updateStreamingMessage { s with rafPending := false } now).messages
        (updateStreamingMessage { s with rafPending := false } now).assistantMessageIndex
        (fun m => { m with isStreaming := false }) = s.messages
    rw [h1, hu]
    exact setMessageIf_not_assistant _ _ _ _ hm hr

/-- Witness for C10: in the initial state the placeholder slot is empty,
so a commit and a finalization leave the (empty) message list unchanged. -/
theorem commit_finalize_frame_effect_witness :
    initialChatState.messages[initialChatState.assistantMessageIndex]?
      = none ∧
    (updateStreamingMessage initialChatState 0).messages
      = initialChatState.messages ∧
    (finishTurn initialChatState 0).messages = initialChatState.messages := by
  have h := (commit_finalize_frame_effect initialChatState 0).2.2.1 rfl
  exact ⟨rfl, h.1, h.2⟩

/-! ### The uncancelled frame callback on the error path -/

/-- A schedule exhibiting the error-path defect: the first content event
commits immediately, the second arrives 5ms later so a frame callback is
scheduled, and then the server error event throws. The catch handler runs
in the same microtask chain as the throw, so the scheduled frame callback
necessarily fires only afterwards — and sendMessage cancels it only on the
success path (lines 155-158 of useChat.ts), not in the catch handler. -/
def errorBugSchedule : List Happening :=
  [Happening.ev (StreamEvent.content "He") 100,
   Happening.ev (StreamEvent.content "llo") 105,
   Happening.ev (StreamEvent.error "boom") 106]

/-- C2 (code bug): after the error event the placeholder does hold the
localized error text with streaming=false, but the frame callback
scheduled by the second content event is still pending, and when it fires
it overwrites the error text with the stale accumulated content "Hello"
and sets the streaming flag back to true — content pending in a scheduled
commit IS applied after the error, contradicting the claim. -/
theorem error_event_stale_commit_bug :
    (sendMessage initialChatState "hello" errorBugSchedule 120).messages[1]?
      = some { role := "assistant", content := "抱歉，发生了错误：boom",
               sources := [], isStreaming := false } ∧
    (sendMessage initialChatState "hello" errorBugSchedule 120).rafPending
      = true ∧
    (rafFire (sendMessage initialChatState "hello" errorBugSchedule 120)
        200).messages[1]?
      = some { role := "assistant", content := "Hello", sources := [],
               isStreaming := true } := by
  decide

/-- C3 (code bug): continuing the errorBugSchedule run after the stale
frame callback fired: the turn is no longer loading, so a second submit is
accepted, and its synchronous mutation prefix (submitPhase) leaves the
list with TWO messages whose streaming flag is true — the resurrected
first placeholder and the fresh second placeholder. -/
theorem two_streaming_messages_bug :
    (rafFire (sendMessage initialChatState "hello" errorBugSchedule 120)
        200).isLoading = false ∧
    ¬ jsTrim "again" = "" ∧
    countStreaming (submitPhase
        (rafFire (sendMessage initialChatState "hello" errorBugSchedule 120)
          200) "again").messages = 2 := by
  decide

/-! ### Progressive reveal renderer (TextPart, MessageList.tsx 588-673)

Strings handled character by character are modelled as List Char here. -/

/-- The first punctuation class of the per-character delay rule, the
template literal on line 629 of MessageList.tsx: fullwidth comma, ideographic
full stop, fullwidth exclamation and question mark, fullwidth semicolon and
colon, then the ASCII double quote twice and the ASCII single quote (i.e.
the code point 39) twice, then fullwidth parentheses. -/
def cjkPunct : List Char :=
  [Char.ofNat 0xFF0C, Char.ofNat 0x3002, Char.ofNat 0xFF01, Char.ofNat 0xFF1F,
   Char.ofNat 0xFF1B, Char.ofNat 0xFF1A, Char.ofNat 34, Char.ofNat 34,
   Char.ofNat 39, Char.ofNat 39, Char.ofNat 0xFF08, Char.ofNat 0xFF09]

/-- The second punctuation class, the template literal on line 631 of
MessageList.tsx: ASCII comma, period, exclamation, question mark,
semicolon, colon, parentheses, then the double and single quote twice. -/
def asciiPunct : List Char :=
  [',', '.', '!', '?', ';', ':', '(', ')', Char.ofNat 34, Char.ofNat 34,
   Char.ofNat 39, Char.ofNat 39]

/-- The per-character delay (MessageList.tsx lines 623-635): 15ms baseline,
30ms after a space, else 80ms for a character of the first class, else 60ms
for one of the second class. -/
def charDelay (c : Char) : Nat :=
  if c = ' ' then 30
  else if c ∈ cjkPunct then 80
  else if c ∈ asciiPunct then 60
  else 15

/-- The local state of the TextPart component: the displayed text, the
isTyping flag, and the pending setTimeout callback of typeNextChar,
carrying the captured targetText, the advanced currentIndex, and the
computed delay. -/
structure TextPartState where
  displayed : List Char
  isTyping : Bool
  timer : Option (List Char × Nat × Nat)
deriving DecidableEq, Repr

/-- Math.floor(Math.random() * 2) + 1, with the random draw supplied as a
natural-number oracle r. -/
def chunkSizeOf (r : Nat) : Nat := r % 2 + 1

/-- One run of typeNextChar (MessageList.tsx lines 616-639): advance the
index by the 1-or-2 chunk (clamped to the target length), display that
prefix, and schedule the next run after the class delay of the last
character shown; once the index reaches the end, stop typing. -/
def typeNextChar (st : TextPartState) (target : List Char) (idx : Nat)
    (r : Nat) : TextPartState :=
  if idx < target.length then
    let idx1 := min (idx + chunkSizeOf r) target.length
    { displayed := target.take idx1, isTyping := st.isTyping,
      timer := some (target, idx1, charDelay (target.getD (idx1 - 1) ' ')) }
  else
    { st with isTyping := false, timer := none }

/-- One run of the TextPart effect (MessageList.tsx lines 596-650): clear
any pending timer; when showCursor is off, show the full content at once;
when streaming and the content grew past the displayed length, start
typing from the displayed length (the first typeNextChar call on line 641
is synchronous); otherwise leave the displayed text alone. -/
def effectRun (st : TextPartState) (content : List Char) (showCursor : Bool)
    (r : Nat) : TextPartState :=
  if showCursor = false then
    { displayed := content, isTyping := false, timer := none }
  else if st.displayed.length < content.length then
    typeNextChar { st with isTyping := true, timer := none } content
      st.displayed.length r
  else { st with timer := none }

/-- The pending setTimeout callback firing. -/
def timerFire (st : TextPartState) (r : Nat) : TextPartState :=
  match st.timer with
  | some (t, i, _) => typeNextChar { st with timer := none } t i r
  | none => st

/-- One step of the renderer: an effect run (with the props at that
moment) or a timer callback firing. -/
inductive TPStep where
  | effect (content : List Char) (showCursor : Bool) (r : Nat)
  | tick (r : Nat)
deriving DecidableEq, Repr

def tpStep (st : TextPartState) : TPStep → TextPartState
  | .effect c sc r => effectRun st c sc r
  | .tick r => timerFire st r

def tpRun (st : TextPartState) : List TPStep → TextPartState
  | [] => st
  | step :: rest => tpRun (tpStep st step) rest

/-- Renderer invariant, relative to a bound L on all target lengths seen
so far: the displayed text never exceeds L, and a pending timer is
consistent with the displayed text. -/
def TPInv (L : Nat) (st : TextPartState) : Prop :=
  st.displayed.length ≤ L ∧
  ∀ t i d, st.timer = some (t, i, d) →
    st.displayed = t.take i ∧ i ≤ t.length ∧ t.length ≤ L

/-- The targets of successive effect runs only grow (the streaming
accumulator of a fixed message only ever gets longer). -/
def Grows : Nat → List TPStep → Prop
  | _, [] => True
  | L, .effect c _ _ :: rest => L ≤ c.length ∧ Grows c.length rest
  | L, .tick _ :: rest => Grows L rest

theorem chunkSizeOf_pos (r : Nat) : 1 ≤ chunkSizeOf r := by
  unfold chunkSizeOf; omega

theorem typeNextChar_grow {L : Nat} (st : TextPartState) (target : List Char)
    (idx r : Nat) (hidx : idx < target.length) (hL : target.length ≤ L)
    (hd : st.displayed.length = idx) :
    idx < (typeNextChar st target idx r).displayed.length ∧
    TPInv L (typeNextChar st target idx r) := by
  have hch := chunkSizeOf_pos r
  unfold typeNextChar
  rw [if_pos hidx]
  have hlen : (target.take (min (idx + chunkSizeOf r) target.length)).length
      = min (idx + chunkSizeOf r) target.length := by
    rw [List.length_take]
    omega
  refine ⟨?_, ?_, ?_⟩
  · show idx < (target.take _).length
    rw [hlen]
    omega
  · show (target.take _).length ≤ L
    rw [hlen]
    omega
  · intro t i d ht
    simp only [Option.some.injEq, Prod.mk.injEq] at ht
    obtain ⟨ht1, ht2, _⟩ := ht
    subst ht1
    subst ht2
    exact ⟨rfl, by omega, hL⟩

theorem timerFire_step {L : Nat} {st : TextPartState} (r : Nat)
    (h : TPInv L st) :
    st.displayed.length ≤ (timerFire st r).displayed.length ∧
    TPInv L (timerFire st r) := by
  unfold timerFire
  cases ht : st.timer with
  | none => exact ⟨Nat.le_refl _, h⟩
  | some tid =>
      obtain ⟨t, i, d⟩ := tid
      obtain ⟨hdisp, hi, hL⟩ := h.2 t i d ht
      have hdl : st.displayed.length = i := by
        rw [hdisp, List.length_take]; omega
      show st.displayed.length
          ≤ (typeNextChar { st with timer := none } t i r).displayed.length ∧
        TPInv L (typeNextChar { st with timer := none } t i r)
      by_cases hlt : i < t.length
      · have hg := typeNextChar_grow { st with timer := none } t i r hlt hL hdl
        exact ⟨by rw [hdl]; exact Nat.le_of_lt hg.1, hg.2⟩
      · unfold typeNextChar
        rw [if_neg hlt]
        exact ⟨Nat.le_refl _, h.1, fun t1 i1 d1 ht1 => nomatch ht1⟩

theorem effectRun_step {L : Nat} {st : TextPartState} (c : List Char)
    (sc : Bool) (r : Nat) (h : TPInv L st) (hc : L ≤ c.length) :
    st.displayed.length ≤ (effectRun st c sc r).displayed.length ∧
    TPInv c.length (effectRun st c sc r) := by
  unfold effectRun
  split
  · exact ⟨h.1.trans hc, Nat.le_refl _, fun t i d ht => nomatch ht⟩
  · split
    case isTrue hlt =>
      have hg := typeNextChar_grow { st with isTyping := true, timer := none }
        c st.displayed.length r hlt (Nat.le_refl _) rfl
      exact ⟨Nat.le_of_lt hg.1, hg.2⟩
    case isFalse hlt =>
      exact ⟨Nat.le_refl _, h.1.trans hc, fun t i d ht => nomatch ht⟩

theorem tpRun_monotone {steps : List TPStep} :
    ∀ {L : Nat} {st : TextPartState}, TPInv L st → Grows L steps →
      st.displayed.length ≤ (tpRun st steps).displayed.length := by
  induction steps with
  | nil => intro L st _ _; exact Nat.le_refl _
  | cons step rest ih =>
      intro L st hInv hG
      cases step with
      | effect c sc r =>
          have hstep := effectRun_step c sc r hInv hG.1
          exact hstep.1.trans (ih hstep.2 hG.2)
      | tick r =>
          have hstep := timerFire_step r hInv
          exact hstep.1.trans (ih hstep.2 hG)

/-- C5: along any run of the renderer in which the target only grows, the
length of the displayed prefix is non-decreasing, and the moment the
streaming flag turns false the effect shows the full target with the
pacing timer torn down (no queued animation). -/
theorem textPart_reveal_spec (L : Nat) (st : TextPartState)
    (steps : List TPStep) (hInv : TPInv L st) (hG : Grows L steps) :
    st.displayed.length ≤ (tpRun st steps).displayed.length ∧
    (∀ c r, effectRun st c false r
      = { displayed := c, isTyping := false, timer := none }) :=
  ⟨tpRun_monotone hInv hG, fun _ _ => rfl⟩

/-- Witness for C5 at a concrete run: an empty renderer, one growing
effect, one tick, then the stream-end effect. -/
theorem textPart_reveal_spec_witness :
    TPInv 0 { displayed := [], isTyping := false, timer := none } ∧
    Grows 0
      [TPStep.effect ['h', 'i'] true 0, TPStep.tick 1,
       TPStep.effect ['h', 'i', '!'] false 0] ∧
    (({ displayed := [], isTyping := false, timer := none } :
        TextPartState).displayed.length ≤
      (tpRun { displayed := [], isTyping := false, timer := none }
        [TPStep.effect ['h', 'i'] true 0, TPStep.tick 1,
         TPStep.effect ['h', 'i', '!'] false 0]).displayed.length ∧
    (∀ c r, effectRun
        { displayed := [], isTyping := false, timer := none } c false r
      = { displayed := c, isTyping := false, timer := none })) :=
  ⟨⟨Nat.le_refl 0, fun t i d ht => nomatch ht⟩,
   ⟨by decide, by decide, trivial⟩,
   textPart_reveal_spec 0 _ _
     ⟨Nat.le_refl 0, fun t i d ht => nomatch ht⟩
     ⟨by decide, by decide, trivial⟩⟩

/-- C9 counterexample: the delay classes are split by script, not by
sentence- versus clause-ending. The ASCII full stop (sentence-ending) gets
60ms, strictly less than the 80ms of the fullwidth comma (clause
punctuation), so sentence-ending punctuation does NOT get the longest
pause; and the ASCII comma (clause punctuation, 60ms) does not share a
pause with the space (30ms). -/
theorem charDelay_not_ranked_by_sentence_class :
    charDelay '.' = 60 ∧ charDelay '，' = 80 ∧
    charDelay '.' < charDelay '，' ∧
    charDelay ',' = 60 ∧ charDelay ' ' = 30 ∧
    ¬ charDelay ',' = charDelay ' ' := by
  decide

/-- C9 amended: every character typeNextChar advances past schedules the
next step with the class delay of the last character shown, and the
classes are: 30ms for the space, 80ms for the first punctuation list
(fullwidth CJK punctuation plus the ASCII quotes), 60ms for the remaining
characters of the second list (ASCII punctuation), and the 15ms baseline
for everything else — the split is CJK-versus-ASCII (with quotes in the
CJK class), not sentence-versus-clause. -/
theorem charDelay_classes (st : TextPartState) (target : List Char)
    (idx r : Nat) (h : idx < target.length) :
    (∃ i, (typeNextChar st target idx r).timer
        = some (target, i, charDelay (target.getD (i - 1) ' ')) ∧
      idx < i ∧ i ≤ target.length) ∧
    charDelay ' ' = 30 ∧
    (∀ c, c ∈ cjkPunct → charDelay c = 80) ∧
    (∀ c, c ∈ asciiPunct → ¬ c ∈ cjkPunct → charDelay c = 60) ∧
    (∀ c, ¬ c = ' ' → ¬ c ∈ cjkPunct → ¬ c ∈ asciiPunct →
      charDelay c = 15) := by
  refine ⟨?_, rfl, ?_, ?_, ?_⟩
  · have hch := chunkSizeOf_pos r
    unfold typeNextChar
    rw [if_pos h]
    exact ⟨min (idx + chunkSizeOf r) target.length, rfl, by omega, by omega⟩
  · intro c hc
    fin_cases hc <;> decide
  · intro c hc hnc
    fin_cases hc <;> first | decide | exact absurd (by decide) hnc
  · intro c h1 h2 h3
    unfold charDelay
    rw [if_neg h1, if_neg h2, if_neg h3]

/-- Witness for C9 at a concrete advance: from index 0 of the two-character
target "a.", typeNextChar schedules the class delay of the character it
lands on. -/
theorem charDelay_classes_witness :
    (0 < (['a', '.'] : List Char).length) ∧
    ((∃ i, (typeNextChar
          { displayed := [], isTyping := true, timer := none }
          ['a', '.'] 0 0).timer
        = some (['a', '.'], i, charDelay ((['a', '.'] : List Char).getD (i - 1) ' ')) ∧
      0 < i ∧ i ≤ (['a', '.'] : List Char).length) ∧
    charDelay ' ' = 30 ∧
    (∀ c, c ∈ cjkPunct → charDelay c = 80) ∧
    (∀ c, c ∈ asciiPunct → ¬ c ∈ cjkPunct → charDelay c = 60) ∧
    (∀ c, ¬ c = ' ' → ¬ c ∈ cjkPunct → ¬ c ∈ asciiPunct →
      charDelay c = 15)) :=
  ⟨by decide,
    charDelay_classes { displayed := [], isTyping := true, timer := none }
      ['a', '.'] 0 0 (by decide)⟩

/-! ### Suggestion debouncer (the ChatInput component) -/

/-- A search suggestion, from the Suggestion interface in
src/frontend/lib/api.ts. -/
structure Suggestion where
  text : String
  type : String
  source : Option String := none
deriving DecidableEq, Repr

/-- The suggestion-related state of ChatInput: the input value, the
visible suggestion state, the single debounce timer (carrying the captured
input value and the fixed 300ms delay), the getSuggestions requests
currently in flight (request id and query), and a fresh-id counter. -/
structure InputState where
  input : String
  suggestions : List Suggestion
  showSuggestions : Bool
  selectedIndex : Int
  debounceTimer : Option (String × Nat)
  inFlight : List (Nat × String)
  nextRequestId : Nat
deriving DecidableEq, Repr

def initialInputState : InputState :=
  { input := "", suggestions := [], showSuggestions := false,
    selectedIndex := -1, debounceTimer := none, inFlight := [],
    nextRequestId := 0 }

/-- fetchSuggestions up to its await point (ChatInput lines 65-73): a
trimmed query shorter than 2 characters clears and hides the suggestions
without issuing any request; otherwise a getSuggestions request is issued
and left in flight. -/
def fetchSuggestions (s : InputState) (query : String) : InputState :=
  if jsTrim query = "" ∨ (jsTrim query).length < 2 then
    { s with suggestions := [], showSuggestions := false }
  else
    { s with inFlight := s.inFlight ++ [(s.nextRequestId, query)],
             nextRequestId := s.nextRequestId + 1 }

/-- handleInputChange (ChatInput lines 87-99): store the value, cancel any
pending debounce timer, and arm a fresh 300ms timer capturing the value. -/
def handleInputChange (s : InputState) (value : String) : InputState :=
  { s with input := value, debounceTimer := some (value, 300) }

/-- The armed debounce timer firing: consume it and run fetchSuggestions
on the captured value. -/
def debounceFire (s : InputState) : InputState :=
  match s.debounceTimer with
  | some (q, _) => fetchSuggestions { s with debounceTimer := none } q
  | none => s

/-- An in-flight getSuggestions request resolving with the given data
(ChatInput lines 73-80): whenever the response carries at least one
suggestion it is shown and the selection reset, otherwise the dropdown is
hidden; there is no check against newer requests. -/
def resolveRequest (s : InputState) (reqId : Nat)
    (data : List Suggestion) : InputState :=
  if s.inFlight.any (fun p => p.1 = reqId) then
    let s1 := { s with inFlight := s.inFlight.filter (fun p => ¬ p.1 = reqId) }
    if 0 < data.length then
      { s1 with suggestions := data, showSuggestions := true,
                selectedIndex := -1 }
    else { s1 with showSuggestions := false }
  else s

/-- C6 counterexample: request A ("re", id 0) is issued first, request B
("rea", id 1) is issued before A resolves; B's response arrives first and
is shown, then A's response arrives — and IS applied, overwriting B's
result in the visible state. The claim that A's response is discarded and
only B's result is ever applied is false. -/
theorem stale_suggestion_response_applied :
    (resolveRequest
        (resolveRequest
          (debounceFire (handleInputChange
            (debounceFire (handleInputChange initialInputState "re"))
            "rea"))
          1 [{ text := "react hooks", type := "common" }])
        0 [{ text := "redux", type := "document" }]).suggestions
      = [{ text := "redux", type := "document" }] ∧
    ¬ ([{ text := "redux", type := "document" }] : List Suggestion)
      = [{ text := "react hooks", type := "common" }] := by
  decide

/-- C6 amended: lookups are suppressed below the 2-character minimum (the
state is cleared instead and nothing is issued); each keystroke replaces
the single armed 300ms debounce timer and issues nothing itself, so a
lookup goes out only when the timer fires after the quiet period; but
there is no stale-response guard: any in-flight request that resolves with
a non-empty suggestion list is applied to the visible state, in resolution
order, even when a newer request was issued before it resolved. -/
theorem suggestion_debouncer_spec (s : InputState) (query value : String)
    (reqId : Nat) (data : List Suggestion) :
    ((jsTrim query).length < 2 →
      fetchSuggestions s query
        = { s with suggestions := [], showSuggestions := false }) ∧
    (¬ (jsTrim query).length < 2 →
      fetchSuggestions s query
        = { s with inFlight := s.inFlight ++ [(s.nextRequestId, query)],
                   nextRequestId := s.nextRequestId + 1 }) ∧
    (handleInputChange s value).debounceTimer = some (value, 300) ∧
    (handleInputChange s value).inFlight = s.inFlight ∧
    (s.inFlight.any (fun p => p.1 = reqId) = true → 0 < data.length →
      (resolveRequest s reqId data).suggestions = data ∧
      (resolveRequest s reqId data).showSuggestions = true) := by
  refine ⟨?_, ?_, rfl, rfl, ?_⟩
  · intro h
    unfold fetchSuggestions
    rw [if_pos (Or.inr h)]
  · intro h
    have h2 : ¬ jsTrim query = "" := by
      intro hq
      rw [hq] at h
      exact h (by decide)
    unfold fetchSuggestions
    rw [if_neg (by simp [h, h2])]
  · intro hin hd
    unfold resolveRequest
    rw [if_pos hin, if_pos hd]
    exact ⟨rfl, rfl⟩

/-- Witness for C6 amended, at concrete inputs: a 1-character query is
suppressed, and a pending request's non-empty response is applied. -/
theorem suggestion_debouncer_spec_witness :
    ((jsTrim "r").length < 2 ∧
      fetchSuggestions initialInputState "r"
        = { initialInputState with suggestions := [],
                                   showSuggestions := false }) ∧
    (({ initialInputState with inFlight := [(0, "re")] } :
        InputState).inFlight.any (fun p => p.1 = 0) = true ∧
      (resolveRequest { initialInputState with inFlight := [(0, "re")] } 0
          [{ text := "redux", type := "document" }]).suggestions
        = [{ text := "redux", type := "document" }]) :=
  ⟨⟨by decide,
    (suggestion_debouncer_spec initialInputState "r" "" 0 []).1 (by decide)⟩,
   ⟨by decide,
    ((suggestion_debouncer_spec
        { initialInputState with inFlight := [(0, "re")] } "" "" 0
        [{ text := "redux", type := "document" }]).2.2.2.2
      (by decide) (by decide)).1⟩⟩

/-! ### Stream transport reader (sendStreamChatMessage, api.ts 73-116)

The raw text is handled as List Char here; the TextDecoder's multi-byte
reassembly is below the level of this model (its output is the character
stream being split). -/

/-- buffer.split of the blank-line frame delimiter (api.ts line 102):
leftmost, non-overlapping matches of the two-newline separator; the last
element is the remainder holding no complete delimiter. -/
def splitFrames : List Char → List (List Char)
  | [] => [[]]
  | [c] => [[c]]
  | c :: c2 :: rest =>
      if c = '\n' ∧ c2 = '\n' then [] :: splitFrames rest
      else
        match splitFrames (c2 :: rest) with
        | [] => [[c]]
        | f :: fs => (c :: f) :: fs

/-- The frame marker checked by line.startsWith (api.ts line 106). -/
def dataMarker : List Char := String.toList "data: "

/-- The per-frame handling (api.ts lines 105-113): a complete frame
starting with the marker yields the text after it (the JSON source handed
to JSON.parse); other frames are skipped; a parse failure is only logged,
never thrown, so payload extraction never fails. -/
def extractPayloads (lines : List (List Char)) : List (List Char) :=
  lines.filterMap fun l =>
    if l.take 6 = dataMarker then some (l.drop 6) else none

/-- The read loop (api.ts lines 95-115): append each chunk to the buffer,
split on the delimiter, keep the final partial piece as the new buffer and
emit the payloads of the complete frames; when the reader reports done the
loop just breaks, discarding whatever partial frame remains buffered. -/
def processChunks : List Char → List (List Char) → List (List Char)
  | _, [] => []
  | buffer, c :: rest =>
      extractPayloads (splitFrames (buffer ++ c)).dropLast
        ++ processChunks ((splitFrames (buffer ++ c)).getLastD []) rest

/-- The observable outcome of one sendStreamChatMessage call: the payloads
yielded and the error thrown, if any. ok and detail model the HTTP status
check (api.ts lines 82-85, throwing error.detail or the localized default);
hasReader models response.body.getReader being unavailable (lines 87-90);
abortMsg models reader.read rejecting — a connection abort — after the
given chunks were delivered. -/
def streamResult (ok : Bool) (detail : Option String) (hasReader : Bool)
    (chunks : List (List Char)) (abortMsg : Option String) :
    List (List Char) × Option String :=
  if ok = false then
    ([], some (match detail with
      | some d => if d = "" then "请求失败" else d
      | none => "请求失败"))
  else if hasReader = false then ([], some "无法读取响应")
  else (processChunks [] chunks, abortMsg)

theorem splitFrames_ne_nil : ∀ l : List Char, ¬ splitFrames l = [] := by
  intro l
  induction l using splitFrames.induct with
  | case1 => simp [splitFrames]
  | case2 c => simp [splitFrames]
  | case3 c c2 rest h ih => rw [splitFrames, if_pos h]; simp
  | case4 c c2 rest h hs ih => exact absurd hs ih
  | case5 c c2 rest h f fs hs ih => rw [splitFrames, if_neg h, hs]; simp

theorem splitFrames_cons_of_ne (c c2 : Char) (rest : List Char)
    (h : ¬ (c = '\n' ∧ c2 = '\n')) {f : List Char} {fs : List (List Char)}
    (hs : splitFrames (c2 :: rest) = f :: fs) :
    splitFrames (c :: c2 :: rest) = (c :: f) :: fs := by
  rw [splitFrames, if_neg h, hs]

theorem splitFrames_singleton : ∀ {l f : List Char},
    splitFrames l = [f] → f = l := by
  intro l
  induction l using splitFrames.induct with
  | case1 =>
      intro f h
      rw [splitFrames] at h
      injection h with h1 _
      exact h1.symm
  | case2 c =>
      intro f h
      rw [splitFrames] at h
      injection h with h1 _
      exact h1.symm
  | case3 c c2 rest h ih =>
      intro f hf
      rw [splitFrames, if_pos h] at hf
      injection hf with _ h2
      exact absurd h2 (splitFrames_ne_nil rest)
  | case4 c c2 rest h hs ih => exact absurd hs (splitFrames_ne_nil _)
  | case5 c c2 rest h f fs hs ih =>
      intro g hg
      rw [splitFrames_cons_of_ne c c2 rest h hs] at hg
      injection hg with h1 h2
      subst h2
      have hf : f = c2 :: rest := ih (by rw [hs])
      rw [← h1, hf]

/-- Splitting a concatenation: the frames of xs ++ ys are the complete
frames of xs followed by the frames of (remainder of xs) ++ ys. This is
what lets the read loop re-split buffer ++ chunk on every read. -/
theorem splitFrames_append (ys : List Char) : ∀ xs : List Char,
    splitFrames (xs ++ ys)
      = (splitFrames xs).dropLast
        ++ splitFrames ((splitFrames xs).getLastD [] ++ ys) := by
  intro xs
  induction xs using splitFrames.induct with
  | case1 => simp [splitFrames]
  | case2 c => simp [splitFrames]
  | case3 c c2 rest h ih =>
      have hne := splitFrames_ne_nil rest
      obtain ⟨hc, hc2⟩ := h
      subst hc; subst hc2
      rw [show ('\n' :: '\n' :: rest) ++ ys = '\n' :: '\n' :: (rest ++ ys)
        from rfl]
      rw [splitFrames, if_pos ⟨rfl, rfl⟩]
      rw [splitFrames, if_pos ⟨rfl, rfl⟩]
      rw [List.dropLast_cons_of_ne_nil hne, List.getLastD_cons, ih,
        List.cons_append]
  | case4 c c2 rest h hs ih => exact absurd hs (splitFrames_ne_nil _)
  | case5 c c2 rest h f fs hs ih =>
      rw [List.cons_append] at ih
      rw [hs] at ih
      rw [show (c :: c2 :: rest) ++ ys = c :: c2 :: (rest ++ ys) from rfl]
      rw [splitFrames_cons_of_ne c c2 rest h hs]
      cases fs with
      | nil =>
          have hf : f = c2 :: rest := splitFrames_singleton hs
          subst hf
          simp only [List.dropLast_single, List.nil_append,
            List.getLastD_cons, List.getLastD_nil]
          rw [show (c :: c2 :: rest) ++ ys = c :: c2 :: (rest ++ ys)
            from rfl]
      | cons f2 fs2 =>
          rw [List.dropLast_cons_of_ne_nil (by simp), List.getLastD_cons,
            List.cons_append] at ih
          have hls := splitFrames_cons_of_ne c c2 (rest ++ ys) h ih
          rw [hls]
          simp only [List.getLastD_cons]
          rw [List.dropLast_cons₂, List.cons_append]

theorem extractPayloads_append (a b : List (List Char)) :
    extractPayloads (a ++ b) = extractPayloads a ++ extractPayloads b :=
  List.filterMap_append a b _

/-- The payloads of a non-empty chunked read depend only on the joined
character stream: splitting into read chunks at arbitrary boundaries
changes nothing, and only the complete frames of the joined stream are
ever delivered. -/
theorem processChunks_eq : ∀ (chunks : List (List Char)) (b : List Char),
    ¬ chunks = [] →
    processChunks b chunks
      = extractPayloads ((splitFrames (b ++ chunks.flatten)).dropLast) := by
  intro chunks
  induction chunks with
  | nil => intro b hb; exact absurd rfl hb
  | cons c rest ih =>
      intro b _
      by_cases hr : rest = []
      · subst hr
        rw [processChunks, processChunks, List.append_nil]
        rw [show (([c] : List (List Char))).flatten = c by simp]
      · rw [processChunks, ih _ hr]
        rw [show b ++ (c :: rest).flatten = (b ++ c) ++ rest.flatten by
          simp [List.append_assoc]]
        conv_rhs =>
          rw [splitFrames_append,
            List.dropLast_append_of_ne_nil _ (splitFrames_ne_nil _),
            extractPayloads_append]

/-- C7 counterexample: with a successful response and a readable body, a
body that ends mid-stream — one complete content frame, then a frame that
is cut off with no terminal marker ever appearing — produces a normal
outcome (no error of any kind): the transport treats it as ordinary
completion and silently discards the partial frame, rather than reporting
any error. -/
theorem stream_end_without_marker_is_normal :
    streamResult true none true
      [String.toList "data: hello\n", String.toList "\ndata: wor"] none
      = ([String.toList "hello"], none) := by
  decide

/-- C7 amended: the transport throws plain Error values (there is no
distinct TransportError type) in exactly the local cases non-success
status (the server detail or the localized default) and unreadable body,
while a connection abort propagates the reader's rejection; a body that
ends without any terminal marker is normal completion whatever was or was
not delivered, with the trailing partial frame discarded — the payloads
being exactly the complete frames of the joined stream, independent of
chunk boundaries — and decode-level failures never terminate the stream. -/
theorem streamTransport_spec (detail : Option String)
    (chunks : List (List Char)) (m : String) :
    (streamResult false detail true chunks none).2
      = some (match detail with
          | some d => if d = "" then "请求失败" else d
          | none => "请求失败") ∧
    (streamResult true detail false chunks none).2 = some "无法读取响应" ∧
    (streamResult true detail true chunks (some m)).2 = some m ∧
    (streamResult true detail true chunks none).2 = none ∧
    (streamResult true detail true chunks none).1 = processChunks [] chunks ∧
    (¬ chunks = [] →
      processChunks [] chunks
        = extractPayloads ((splitFrames chunks.flatten).dropLast)) := by
  refine ⟨rfl, rfl, rfl, rfl, rfl, ?_⟩
  intro h
  simpa using processChunks_eq chunks [] h

/-- Witness for C7 amended at a concrete chunking: one complete frame
split across two reads. -/
theorem streamTransport_spec_witness :
    ¬ ([String.toList "data: a\n", String.toList "\n"] :
        List (List Char)) = [] ∧
    processChunks [] [String.toList "data: a\n", String.toList "\n"]
      = extractPayloads ((splitFrames
          ([String.toList "data: a\n", String.toList "\n"] :
            List (List Char)).flatten).dropLast) :=
  ⟨by decide,
    (streamTransport_spec none
        [String.toList "data: a\n", String.toList "\n"] "").2.2.2.2.2
      (by decide)⟩

end FrontendRag
